import Mathlib

/-!
Verification of the Task Store of the Todotasks repository
(`src/todo/script.js`, class `TaskManager`).

The JavaScript code is shallowly embedded as pure Lean functions:

* a JS task object becomes the structure `Task`;
* `this.tasks` (the mutable array) is threaded explicitly as a `List Task`,
  with `unshift` as cons, `filter` as `List.filter`, and the in-place
  `Object.assign` mutation of the task found by `find` as replacement of the
  first matching element;
* every mutating method additionally reports a `Bool` telling whether it
  invoked `save()` (persistence effect), so "persists only if ..." claims
  are statable;
* `ID()` (`Math.random()`-based) and `Date.now()` are environment inputs, so
  `addTask` receives the generated id and the timestamp as extra arguments;
* `localStorage` content as seen by `load()` is the type `Stored`: the key
  may be absent, hold a string `JSON.parse` rejects (`malformed`), or hold a
  string parsing to a JSON value; JSON values are the inductive `Json` and
  `JSON.stringify`/`JSON.parse` of a produced value is the identity on it.
-/

namespace Todotasks

/-- The whitespace test underlying JavaScript `String.prototype.trim`
(ASCII whitespace, NBSP, BOM; the exact character set is irrelevant to the
claims, which relate the code only to its own `trim`). -/
def isJsWhitespace (c : Char) : Bool :=
  c = ' ' || c = '\t' || c = '\n' || c = '\r' || c = '\x0b' || c = '\x0c' ||
    c = '\u00A0' || c = '\uFEFF'

/-- Remove trailing whitespace characters. -/
def rtrimList (l : List Char) : List Char :=
  (l.reverse.dropWhile isJsWhitespace).reverse

/-- Remove leading and trailing whitespace characters, as JS `trim`. -/
def trimList (l : List Char) : List Char :=
  rtrimList (l.dropWhile isJsWhitespace)

/-- `s.trim()` of JavaScript. -/
def jsTrim (s : String) : String :=
  ⟨trimList s.data⟩

/-- A task object as built by `addTask`:
`{ id: ID(), text: String(text).trim(), completed: false, createdAt: Date.now() }`. -/
structure Task where
  id : String
  text : String
  completed : Bool
  createdAt : Nat
  deriving DecidableEq, Repr

/-- A partial-fields record passed to `updateTask(id, updates)`: any subset
of the task's fields may be present (`Object.assign` merges the present
ones). -/
structure Update where
  id : Option String := none
  text : Option String := none
  completed : Option Bool := none
  createdAt : Option Nat := none
  deriving DecidableEq, Repr

/-- `Object.assign(t, updates)`: fields present in `updates` overwrite the
task's fields, absent ones are kept. -/
def applyUpdate (u : Update) (t : Task) : Task :=
  { id := u.id.getD t.id
    text := u.text.getD t.text
    completed := u.completed.getD t.completed
    createdAt := u.createdAt.getD t.createdAt }

/-- `addTask(text)` (script.js lines 48-59).  `freshId` is the value the call
`ID()` returned and `now` the value of `Date.now()`.  Result: the JS return
value (`null` or the created task), the new `this.tasks`, and whether
`save()` was called. -/
def addTask (freshId : String) (now : Nat) (text : String) (tasks : List Task) :
    Option Task × List Task × Bool :=
  let task : Task :=
    { id := freshId, text := jsTrim text, completed := false, createdAt := now }
  if task.text = "" then (none, tasks, false)
  else (some task, task :: tasks, true)

/-- The effect of `const t = this.tasks.find(x => x.id === id); Object.assign(t, updates)`:
replace the first task whose id matches, `none` when `find` fails. -/
def updateFirst (id : String) (u : Update) : List Task → Option (List Task)
  | [] => none
  | t :: ts =>
    if t.id = id then some (applyUpdate u t :: ts)
    else (updateFirst id u ts).map fun ts2 => t :: ts2

/-- `updateTask(id, updates)` (script.js lines 61-67).  Result: the returned
`Bool`, the new `this.tasks`, and whether `save()` was called. -/
def updateTask (id : String) (u : Update) (tasks : List Task) :
    Bool × List Task × Bool :=
  match updateFirst id u tasks with
  | none => (false, tasks, false)
  | some tasks2 => (true, tasks2, true)

/-- `removeTask(id)` (script.js lines 69-77).  `this.tasks` is reassigned to
the filtered array unconditionally; `save()` runs and `true` is returned
only when the length changed. -/
def removeTask (id : String) (tasks : List Task) :
    Bool × List Task × Bool :=
  let tasks2 := tasks.filter fun t => t.id ≠ id
  if tasks2.length ≠ tasks.length then (true, tasks2, true)
  else (false, tasks2, false)

/-- `clearCompleted()` (script.js lines 79-85).  Returns the new
`this.tasks` and whether `save()` was called. -/
def clearCompleted (tasks : List Task) : List Task × Bool :=
  let tasks2 := tasks.filter fun t => !t.completed
  (tasks2, decide (tasks2.length ≠ tasks.length))

/-- `getRemainingCount()` (script.js lines 87-89): a read-only method, so its
embedding takes the task list and returns a number (no state output: the
source body contains no assignment). -/
def getRemainingCount (tasks : List Task) : Nat :=
  (tasks.filter fun t => !t.completed).length

/-- One Task Store mutation together with the environment inputs it consumed
(the id `ID()` produced and the `Date.now()` timestamp for `add`). -/
inductive Op where
  | add (freshId : String) (now : Nat) (text : String)
  | update (id : String) (u : Update)
  | remove (id : String)
  | clear
  deriving DecidableEq, Repr

/-- State transformer of one operation (the `this.tasks` component). -/
def applyOp : Op → List Task → List Task
  | Op.add i n s, ts => (addTask i n s ts).2.1
  | Op.update i u, ts => (updateTask i u ts).2.1
  | Op.remove i, ts => (removeTask i ts).2.1
  | Op.clear, ts => (clearCompleted ts).1

/-- Run a sequence of Task Store operations from a starting list. -/
def run (ops : List Op) (tasks : List Task) : List Task :=
  ops.foldl (fun ts op => applyOp op ts) tasks

/-! ## Persistence layer (`load`, `save`, script.js lines 27-46)

`localStorage.getItem` followed by `JSON.parse` has three relevant outcomes,
captured by `Stored`; a successfully parsed value is a JSON value `Json`.
`save()` writes `JSON.stringify(this.tasks)`, i.e. the JSON array of the
tasks' field objects.  JS never decodes on load (the parsed objects *are*
the tasks); the typed embedding makes that identification explicit through
`encodeTask`/`decodeTask`, with `decodeTask` the field-reading inverse. -/

/-- A JSON value (the image of `JSON.parse` on success). -/
inductive Json where
  | null
  | bool (b : Bool)
  | num (n : Nat)
  | str (s : String)
  | arr (xs : List Json)
  | obj (fields : List (String × Json))

/-- `Array.isArray(parsed)`. -/
def isArr : Json → Bool
  | Json.arr _ => true
  | _ => false

/-- What `localStorage.getItem(storageKey)` + `JSON.parse` yield: the key is
absent (`getItem` returns null), present but unparseable (`JSON.parse`
throws), or present and parsed to a JSON value. -/
inductive Stored where
  | absent
  | malformed
  | value (j : Json)

/-- `JSON.stringify` of one task object. -/
def encodeTask (t : Task) : Json :=
  Json.obj [("id", Json.str t.id), ("text", Json.str t.text),
    ("completed", Json.bool t.completed), ("createdAt", Json.num t.createdAt)]

/-- Reading a parsed object back as a task (the typed counterpart of the
dynamic field accesses the JS code performs on loaded objects). -/
def decodeTask : Json → Option Task
  | Json.obj [("id", Json.str i), ("text", Json.str s),
      ("completed", Json.bool c), ("createdAt", Json.num n)] =>
    some { id := i, text := s, completed := c, createdAt := n }
  | _ => none

/-- `save()` (script.js lines 40-46): writes the serialized full list. -/
def save (tasks : List Task) : Stored :=
  Stored.value (Json.arr (tasks.map encodeTask))

/-- `load()` (script.js lines 27-38): `[]` when the key is absent
(`if (!raw) return []`), when `JSON.parse` throws (the `catch`), and when
the parsed value is not an array (`if (!Array.isArray(parsed)) return []`);
otherwise the parsed array's elements, unexamined. -/
def load : Stored → List Json
  | Stored.absent => []
  | Stored.malformed => []
  | Stored.value (Json.arr xs) => xs
  | Stored.value _ => []

/-! ## Reachable states

`ReachP P ts`: the list `ts` arises from the empty list by a sequence of
Task Store operations, each satisfying the side condition `P` in the state
it runs in.  `P := fun _ _ => True` is an arbitrary operation sequence. -/

/-- Reachability of a task list from the empty list under per-operation
side condition `P`. -/
inductive ReachP (P : Op → List Task → Prop) : List Task → Prop where
  | init : ReachP P []
  | step (op : Op) (ts : List Task) : ReachP P ts → P op ts →
      ReachP P (applyOp op ts)

/-- Side conditions of the amended C3: `ID()` only ever hands `addTask` an id
not currently held (its intended behavior), and no `updateTask` call carries
an `id` field (none in the repository does). -/
def FreshIdOk : Op → List Task → Prop
  | Op.add i _ _, ts => i ∉ ts.map Task.id
  | Op.update _ u, _ => u.id = none
  | _, _ => True

/-- Side condition of the amended C4: any `text` field handed to
`updateTask` is itself trimmed and non-empty (the repository's only such
caller passes `text.textContent.trim()` guarded by an emptiness check). -/
def TextOk : Op → List Task → Prop
  | Op.update _ u, _ => ∀ s, u.text = some s → jsTrim s = s ∧ s ≠ ""
  | _, _ => True

/-! ## Helper lemmas -/

theorem rtrimList_eq_rdropWhile (l : List Char) :
    rtrimList l = l.rdropWhile isJsWhitespace := rfl

theorem rtrimList_exists_append (l : List Char) :
    ∃ t, l = rtrimList l ++ t := by
  obtain ⟨s, hs⟩ := List.dropWhile_suffix (l := l.reverse) isJsWhitespace
  refine ⟨s.reverse, ?_⟩
  have h2 := congrArg List.reverse hs
  simpa [rtrimList] using h2.symm

theorem dropWhile_rtrimList (l : List Char)
    (hl : l.dropWhile isJsWhitespace = l) :
    (rtrimList l).dropWhile isJsWhitespace = rtrimList l := by
  obtain ⟨t, ht⟩ := rtrimList_exists_append l
  cases hr : rtrimList l with
  | nil => rfl
  | cons c cs =>
    rw [hr] at ht
    rw [ht] at hl
    have hc : isJsWhitespace c = false := by
      by_contra hcc
      rw [List.cons_append, List.dropWhile_cons_of_pos (by simpa using hcc)] at hl
      have := (List.dropWhile_sublist (l := cs ++ t) (p := isJsWhitespace)).length_le
      have h2 := congrArg List.length hl
      simp only [List.length_cons] at h2
      omega
    rw [List.dropWhile_cons_of_neg (by simp [hc])]

theorem trimList_idem (l : List Char) :
    trimList (trimList l) = trimList l := by
  have ha : (l.dropWhile isJsWhitespace).dropWhile isJsWhitespace
      = l.dropWhile isJsWhitespace := List.dropWhile_idempotent _ _
  unfold trimList
  rw [dropWhile_rtrimList _ ha]
  simp only [rtrimList_eq_rdropWhile]
  exact List.rdropWhile_idempotent _ _

theorem jsTrim_idem (s : String) : jsTrim (jsTrim s) = jsTrim s := by
  simp only [jsTrim]
  exact congrArg String.mk (trimList_idem s.data)

/-- `updateFirst` fails exactly when no task has the id. -/
theorem updateFirst_eq_none (id : String) (u : Update) :
    ∀ ts : List Task, updateFirst id u ts = none ↔ ∀ t ∈ ts, t.id ≠ id := by
  intro ts
  induction ts with
  | nil => simp [updateFirst]
  | cons t ts ih =>
    by_cases h : t.id = id
    · simp [updateFirst, h]
    · simp [updateFirst, h, ih]

/-- `updateFirst` success decomposes the list around the first match. -/
theorem updateFirst_eq_some (id : String) (u : Update) :
    ∀ ts ts2 : List Task, updateFirst id u ts = some ts2 →
      ∃ pre t post, ts = pre ++ t :: post ∧ t.id = id ∧
        (∀ t2 ∈ pre, t2.id ≠ id) ∧ ts2 = pre ++ applyUpdate u t :: post := by
  intro ts
  induction ts with
  | nil => intro ts2 h; simp [updateFirst] at h
  | cons t ts ih =>
    intro ts2 h
    by_cases ht : t.id = id
    · refine ⟨[], t, ts, by simp, ht, by simp, ?_⟩
      simp only [updateFirst, if_pos ht, Option.some.injEq] at h
      simp [h.symm]
    · simp only [updateFirst, if_neg ht, Option.map_eq_some'] at h
      obtain ⟨ts3, h3, rfl⟩ := h
      obtain ⟨pre, t2, post, hts, hid, hpre, hts3⟩ := ih ts3 h3
      exact ⟨t :: pre, t2, post, by simp [hts], hid,
        by simpa [ht] using hpre, by simp [hts3]⟩

/-- With no `id` field in the update, the sequence of ids is untouched. -/
theorem applyUpdate_id_of_none (u : Update) (h : u.id = none) (t : Task) :
    (applyUpdate u t).id = t.id := by
  simp [applyUpdate, h]

example : jsTrim "  hi \t" = "hi" := by rfl
example : jsTrim " \n " = "" := by rfl
example :
    addTask "_a" 5 " hi " [] =
      (some ⟨"_a", "hi", false, 5⟩, [⟨"_a", "hi", false, 5⟩], true) := by rfl
example : addTask "_a" 5 "  " [⟨"_b", "x", false, 0⟩] =
    (none, [⟨"_b", "x", false, 0⟩], false) := by rfl
example :
    updateTask "_a" { completed := some true } [⟨"_a", "x", false, 0⟩] =
      (true, [⟨"_a", "x", true, 0⟩], true) := by rfl
example : removeTask "_a" [⟨"_a", "x", false, 0⟩] = (true, [], true) := by rfl
example : removeTask "_z" [⟨"_a", "x", false, 0⟩] =
    (false, [⟨"_a", "x", false, 0⟩], false) := by rfl
example :
    run [Op.add "_a" 0 "x", Op.add "_a" 1 "y"] [] =
      [⟨"_a", "y", false, 1⟩, ⟨"_a", "x", false, 0⟩] := by rfl

/-! ## Claim theorems -/

/-- Claim C1: `addTask(s)` returns a created task iff `trim(s)` is non-empty; on
success the returned task has `text = trim(s)`, `completed = false`, and is
inserted at the head of the list; on empty trim the call returns null,
leaves the list unchanged, and does not persist. -/
theorem c1_addTask (i : String) (n : Nat) (s : String) (ts : List Task) :
    ((addTask i n s ts).1.isSome ↔ jsTrim s ≠ "") ∧
    (∀ t : Task, (addTask i n s ts).1 = some t →
      t.text = jsTrim s ∧ t.completed = false ∧
      (addTask i n s ts).2.1 = t :: ts ∧ (addTask i n s ts).2.2 = true) ∧
    (jsTrim s = "" → addTask i n s ts = (none, ts, false)) := by
  by_cases h : jsTrim s = ""
  · simp [addTask, h]
  · refine ⟨by simp [addTask, h], fun t ht => ?_, fun he => absurd he h⟩
    simp only [addTask, if_neg h, Option.some.injEq] at ht
    subst ht
    simp [addTask, h]

theorem c1_addTask_witness :
    Task.text ⟨"_a", "hi", false, 0⟩ = jsTrim " hi " ∧
      addTask "_a" 0 " " [] = (none, [], false) :=
  ⟨((c1_addTask "_a" 0 " hi " []).2.1 ⟨"_a", "hi", false, 0⟩ rfl).1,
    (c1_addTask "_a" 0 " " []).2.2 rfl⟩

/-- Claim C6: saving the task list and loading it back in a fresh session over the
same uncorrupted storage yields a list equal in content and order to the one
saved (reading each loaded JSON object back as a task recovers the list). -/
theorem c6_save_load_roundtrip (ts : List Task) :
    (load (save ts)).mapM decodeTask = some ts := by
  show (ts.map encodeTask).mapM decodeTask = some ts
  induction ts with
  | nil => rfl
  | cons t ts ih =>
    have hdec : decodeTask (encodeTask t) = some t := rfl
    rw [List.map_cons, List.mapM_cons, hdec, ih]
    rfl

/-- Claim C7: `load()` yields the empty list when the stored entry is absent, when
its content does not parse, and when the parsed content is not an array; it
is a total function (no user-visible error). -/
theorem c7_load_fallback :
    load Stored.absent = [] ∧ load Stored.malformed = [] ∧
    ∀ j : Json, isArr j = false → load (Stored.value j) = [] := by
  refine ⟨rfl, rfl, fun j hj => ?_⟩
  cases j <;> first | rfl | simp [isArr] at hj

theorem c7_load_fallback_witness :
    isArr (Json.num 5) = false ∧ load (Stored.value (Json.num 5)) = [] :=
  ⟨rfl, c7_load_fallback.2.2 (Json.num 5) rfl⟩

/-- Claim C8: `clearCompleted()` is idempotent; it keeps exactly the tasks with
`completed == false`; it persists exactly when the count changed. -/
theorem c8_clearCompleted (ts : List Task) :
    (clearCompleted (clearCompleted ts).1).1 = (clearCompleted ts).1 ∧
    (∀ t : Task, t ∈ (clearCompleted ts).1 ↔ t ∈ ts ∧ t.completed = false) ∧
    ((clearCompleted ts).2 = true ↔ (clearCompleted ts).1.length ≠ ts.length) := by
  refine ⟨?_, fun t => ?_, ?_⟩
  · simp [clearCompleted, List.filter_filter]
  · simp [clearCompleted, List.mem_filter]
  · simp [clearCompleted]

theorem c8_clearCompleted_witness :
    (clearCompleted (clearCompleted [(⟨"_a", "x", true, 0⟩ : Task)]).1).1 =
      (clearCompleted [(⟨"_a", "x", true, 0⟩ : Task)]).1 :=
  (c8_clearCompleted [⟨"_a", "x", true, 0⟩]).1

/-- Claim C9: after any sequence of operations, `getRemainingCount()` equals the
number of list elements with `completed == false`; it is a pure read (its
embedding is a function of the list alone, returning no state, because the
source body contains no assignment). -/
theorem c9_getRemainingCount (ops : List Op) (ts : List Task) :
    getRemainingCount (run ops ts) =
      ((run ops ts).filter fun t => t.completed = false).length := by
  unfold getRemainingCount
  congr 1
  apply List.filter_congr
  intro t _
  cases h : t.completed <;> simp [h]

/-- Positions whose task does not carry the searched id are untouched by a
successful `updateFirst`. -/
theorem updateFirst_getElem? (id : String) (u : Update) :
    ∀ ts ts2 : List Task, updateFirst id u ts = some ts2 →
      ∀ i : Nat, (∀ t2 : Task, ts[i]? = some t2 → t2.id ≠ id) →
        ts2[i]? = ts[i]? := by
  intro ts
  induction ts with
  | nil => intro ts2 h; simp [updateFirst] at h
  | cons t ts ih =>
    intro ts2 h i hi
    by_cases ht : t.id = id
    · simp only [updateFirst, if_pos ht, Option.some.injEq] at h
      subst h
      cases i with
      | zero => exact absurd ht (hi t (by simp))
      | succ j => simp
    · simp only [updateFirst, if_neg ht, Option.map_eq_some'] at h
      obtain ⟨ts3, h3, rfl⟩ := h
      cases i with
      | zero => simp
      | succ j =>
        simp only [List.getElem?_cons_succ]
        exact ih ts3 h3 j (by simpa using hi)

/-- Claim C5: `updateTask(id, u)` on an absent id returns `false`, leaves the list
unchanged and does not persist (and, being a total function, propagates no
exception); on a present id it returns `true`, persists, and the new list is
the old one with the given fields merged into the first task carrying the
id. -/
theorem c5_updateTask (id : String) (u : Update) (ts : List Task) :
    ((∀ t ∈ ts, t.id ≠ id) → updateTask id u ts = (false, ts, false)) ∧
    ((∃ t ∈ ts, t.id = id) →
      (updateTask id u ts).1 = true ∧ (updateTask id u ts).2.2 = true ∧
      ∃ pre t post, ts = pre ++ t :: post ∧ t.id = id ∧
        (∀ t2 ∈ pre, t2.id ≠ id) ∧
        (updateTask id u ts).2.1 = pre ++ applyUpdate u t :: post) := by
  constructor
  · intro h
    have hnone : updateFirst id u ts = none := (updateFirst_eq_none id u ts).mpr h
    simp [updateTask, hnone]
  · intro h
    cases hf : updateFirst id u ts with
    | none =>
      obtain ⟨t, ht, hid⟩ := h
      exact absurd hid ((updateFirst_eq_none id u ts).mp hf t ht)
    | some ts2 =>
      obtain ⟨pre, t, post, h1, h2, h3, h4⟩ := updateFirst_eq_some id u ts ts2 hf
      refine ⟨?_, ?_, pre, t, post, h1, h2, h3, ?_⟩ <;> simp [updateTask, hf, h4]

theorem c5_updateTask_witness :
    updateTask "_z" { completed := some true } [(⟨"_a", "x", false, 0⟩ : Task)] =
      (false, [(⟨"_a", "x", false, 0⟩ : Task)], false) ∧
    (updateTask "_a" { completed := some true }
      [(⟨"_a", "x", false, 0⟩ : Task)]).1 = true :=
  ⟨(c5_updateTask "_z" { completed := some true } [⟨"_a", "x", false, 0⟩]).1
      (by decide),
    ((c5_updateTask "_a" { completed := some true } [⟨"_a", "x", false, 0⟩]).2
      ⟨⟨"_a", "x", false, 0⟩, by decide, rfl⟩).1⟩

/-- Claim C10: `updateTask` keeps the length and every position whose task does
not carry the given id; `removeTask` and `clearCompleted` leave the
surviving tasks in their original relative order (the new list is a sublist
of the old one). -/
theorem c10_frame (id : String) (u : Update) (ts : List Task) :
    ((updateTask id u ts).2.1.length = ts.length ∧
      ∀ i : Nat, (∀ t2 : Task, ts[i]? = some t2 → t2.id ≠ id) →
        (updateTask id u ts).2.1[i]? = ts[i]?) ∧
    List.Sublist (removeTask id ts).2.1 ts ∧
    List.Sublist (clearCompleted ts).1 ts := by
  refine ⟨⟨?_, fun i hi => ?_⟩, ?_, ?_⟩
  · cases hf : updateFirst id u ts with
    | none => simp [updateTask, hf]
    | some ts2 =>
      obtain ⟨pre, t, post, h1, _, _, h4⟩ := updateFirst_eq_some id u ts ts2 hf
      have hval : (updateTask id u ts).2.1 = ts2 := by simp [updateTask, hf]
      rw [hval, h4, h1]
      simp
  · cases hf : updateFirst id u ts with
    | none => simp [updateTask, hf]
    | some ts2 =>
      have hval : (updateTask id u ts).2.1 = ts2 := by simp [updateTask, hf]
      rw [hval]
      exact updateFirst_getElem? id u ts ts2 hf i hi
  · have hval : (removeTask id ts).2.1 = ts.filter fun t => t.id ≠ id := by
      unfold removeTask
      dsimp only
      split <;> rfl
    rw [hval]
    exact List.filter_sublist ts
  · exact List.filter_sublist ts

theorem c10_frame_witness :
    (updateTask "_z" { text := some "y" }
        [(⟨"_a", "x", false, 0⟩ : Task)]).2.1[0]? =
      [(⟨"_a", "x", false, 0⟩ : Task)][0]? :=
  (c10_frame "_z" { text := some "y" } [⟨"_a", "x", false, 0⟩]).1.2 0
    (fun t2 h => by
      simp only [List.getElem?_cons_zero, Option.some.injEq] at h
      subst h
      decide)

/-- The new `this.tasks` after `removeTask` is the filtered list in both
branches (the source reassigns before comparing lengths). -/
theorem removeTask_val (id : String) (ts : List Task) :
    (removeTask id ts).2.1 = ts.filter fun t => t.id ≠ id := by
  unfold removeTask
  dsimp only
  split <;> rfl

/-- Claim C2 as stated is false: `removeTask` filters out *every* task with the
id, so on a list holding two tasks with the same id (reachable, since ids
are random) the count drops by two, not one. -/
theorem c2_counterexample :
    ¬ (∀ (ts : List Task) (i : String), (∃ t ∈ ts, t.id = i) →
        (removeTask i ts).2.1.length + 1 = ts.length) := by
  intro h
  have h2 := h [⟨"_a", "x", false, 0⟩, ⟨"_a", "y", false, 0⟩] "_a" (by decide)
  exact absurd h2 (by decide)

/-- Claim C2 amended: on a list whose ids are pairwise distinct, removing a
present id drops the count by exactly one, leaves no task with the id,
persists and returns `true`; removing an absent id leaves the list
unchanged, does not persist and returns `false` (the absent case needs no
distinctness). -/
theorem c2_removeTask (ts : List Task) (id : String)
    (hnd : (ts.map Task.id).Nodup) :
    ((∃ t ∈ ts, t.id = id) →
      (removeTask id ts).2.1.length + 1 = ts.length ∧
      (∀ t ∈ (removeTask id ts).2.1, t.id ≠ id) ∧
      (removeTask id ts).1 = true ∧ (removeTask id ts).2.2 = true) ∧
    ((∀ t ∈ ts, t.id ≠ id) →
      (removeTask id ts).2.1 = ts ∧ (removeTask id ts).1 = false ∧
      (removeTask id ts).2.2 = false) := by
  constructor
  · rintro ⟨t0, hmem, hid⟩
    obtain ⟨s, r, rfl⟩ := List.append_of_mem hmem
    rw [List.map_append, List.map_cons, List.nodup_middle, List.nodup_cons,
      ← List.map_append] at hnd
    have hnotin : t0.id ∉ (s ++ r).map Task.id := hnd.1
    have hside : ∀ t ∈ s ++ r, t.id ≠ id := by
      intro t htm heq
      exact hnotin (List.mem_map.mpr ⟨t, htm, by rw [heq, hid]⟩)
    have hfilter : ((s ++ t0 :: r).filter fun t => t.id ≠ id) = s ++ r := by
      rw [List.filter_append, List.filter_cons]
      have hs : (s.filter fun t => t.id ≠ id) = s :=
        List.filter_eq_self.mpr fun a ha => by
          simpa using hside a (List.mem_append_left r ha)
      have hr : (r.filter fun t => t.id ≠ id) = r :=
        List.filter_eq_self.mpr fun a ha => by
          simpa using hside a (List.mem_append_right s ha)
      rw [if_neg (by simp [hid] : ¬(decide (t0.id ≠ id) = true)), hs, hr]
    have hcond : ((s ++ t0 :: r).filter fun t => t.id ≠ id).length ≠
        (s ++ t0 :: r).length := by
      rw [hfilter]
      simp only [List.length_append, List.length_cons]
      omega
    have heq : removeTask id (s ++ t0 :: r) =
        (true, (s ++ t0 :: r).filter fun t => t.id ≠ id, true) := by
      unfold removeTask
      dsimp only
      rw [if_pos hcond]
    refine ⟨?_, ?_, by rw [heq], by rw [heq]⟩
    · rw [heq]
      dsimp only
      rw [hfilter]
      simp only [List.length_append, List.length_cons]
      omega
    · intro t htm
      rw [heq] at htm
      simpa using List.of_mem_filter htm
  · intro h
    have hfilter : (ts.filter fun t => t.id ≠ id) = ts :=
      List.filter_eq_self.mpr fun a ha => by simpa using h a ha
    have hcond : ¬ ((ts.filter fun t => t.id ≠ id).length ≠ ts.length) := by
      rw [hfilter]
      simp
    have heq : removeTask id ts = (false, ts.filter fun t => t.id ≠ id, false) := by
      unfold removeTask
      dsimp only
      rw [if_neg hcond]
    rw [heq]
    exact ⟨hfilter, rfl, rfl⟩

theorem c2_removeTask_witness :
    (removeTask "_a" [(⟨"_a", "x", false, 0⟩ : Task)]).2.1.length + 1 =
      [(⟨"_a", "x", false, 0⟩ : Task)].length ∧
    (removeTask "_z" [(⟨"_a", "x", false, 0⟩ : Task)]).1 = false :=
  ⟨((c2_removeTask [⟨"_a", "x", false, 0⟩] "_a" (by decide)).1 (by decide)).1,
    ((c2_removeTask [⟨"_a", "x", false, 0⟩] "_z" (by decide)).2 (by decide)).2.1⟩

/-- Value of `this.tasks` after an `addTask` whose trimmed text is empty. -/
theorem addTask_val_neg (i : String) (n : Nat) (s : String) (ts : List Task)
    (he : jsTrim s = "") : (addTask i n s ts).2.1 = ts := by
  unfold addTask
  dsimp only
  rw [if_pos he]

/-- Value of `this.tasks` after an `addTask` whose trimmed text is
non-empty. -/
theorem addTask_val_pos (i : String) (n : Nat) (s : String) (ts : List Task)
    (he : jsTrim s ≠ "") :
    (addTask i n s ts).2.1 = (⟨i, jsTrim s, false, n⟩ : Task) :: ts := by
  unfold addTask
  dsimp only
  rw [if_neg he]

/-- An update without an `id` field never changes the sequence of ids. -/
theorem updateTask_map_id (id : String) (u : Update) (ts : List Task)
    (hu : u.id = none) :
    ((updateTask id u ts).2.1).map Task.id = ts.map Task.id := by
  cases hf : updateFirst id u ts with
  | none => simp [updateTask, hf]
  | some ts2 =>
    obtain ⟨pre, t, post, h1, _, _, h4⟩ := updateFirst_eq_some id u ts ts2 hf
    have hval : (updateTask id u ts).2.1 = ts2 := by simp [updateTask, hf]
    rw [hval, h4, h1]
    simp [applyUpdate_id_of_none u hu]

/-- Claim C3 as stated is false on the code: `addTask` never checks the freshly
generated id against the list (two colliding `ID()` draws yield duplicate
ids), and `updateTask` merges an `id` field like any other, changing a
task's id after creation. -/
theorem c3_counterexample :
    (¬ ∀ ops : List Op, ((run ops []).map Task.id).Nodup) ∧
    (run [Op.add "_a" 0 "x", Op.update "_a" { id := some "_b" }] []).map Task.id
      = ["_b"] := by
  constructor
  · intro h
    exact absurd (h [Op.add "_a" 0 "x", Op.add "_a" 1 "y"]) (by decide)
  · rfl

/-- Claim C3 amended: in every state reachable from the empty list by operations
in which `addTask` is handed an id not currently held (the generator's
intent) and no `updateTask` carries an `id` field (none in the repository
does), ids are pairwise distinct; moreover an `updateTask` without an `id`
field never changes any task's id. -/
theorem c3_unique_ids :
    (∀ ts : List Task, ReachP FreshIdOk ts → (ts.map Task.id).Nodup) ∧
    (∀ (id : String) (u : Update) (ts : List Task), u.id = none →
      ((updateTask id u ts).2.1).map Task.id = ts.map Task.id) := by
  refine ⟨?_, updateTask_map_id⟩
  intro ts h
  induction h with
  | init => simp
  | step op ts2 hr hp ih =>
    cases op with
    | add i n s =>
      simp only [applyOp]
      by_cases he : jsTrim s = ""
      · rw [addTask_val_neg i n s ts2 he]
        exact ih
      · rw [addTask_val_pos i n s ts2 he, List.map_cons]
        exact List.nodup_cons.mpr ⟨hp, ih⟩
    | update id u =>
      simp only [applyOp]
      rw [updateTask_map_id id u ts2 hp]
      exact ih
    | remove i =>
      simp only [applyOp]
      rw [removeTask_val]
      exact List.Nodup.sublist (List.Sublist.map Task.id (List.filter_sublist ts2)) ih
    | clear =>
      simp only [applyOp]
      exact List.Nodup.sublist (List.Sublist.map Task.id (List.filter_sublist ts2)) ih

theorem c3_unique_ids_witness :
    ((applyOp (Op.add "_a" 0 "x") []).map Task.id).Nodup :=
  c3_unique_ids.1 (applyOp (Op.add "_a" 0 "x") [])
    (ReachP.step (Op.add "_a" 0 "x") [] ReachP.init (by simp [FreshIdOk]))

/-- Claim C4 as stated is false on the code: `updateTask` merges a `text` field
without any emptiness or trimming check, so one update stores a task whose
text is the empty string. -/
theorem c4_counterexample :
    ¬ (∀ ops : List Op, ∀ t ∈ run ops [], t.text ≠ "") := by
  intro h
  exact h [Op.add "_a" 0 "x", Op.update "_a" { text := some "" }]
    ⟨"_a", "", false, 0⟩ (by decide) rfl

/-- Claim C4 amended: creation rejects empty trimmed text, and in every state
reachable from the empty list by operations in which any `text` field handed
to `updateTask` is itself trimmed and non-empty (as the repository's only
such caller guarantees), every stored text is a non-empty trimmed string. -/
theorem c4_text_invariant (ts : List Task) (h : ReachP TextOk ts) :
    ∀ t ∈ ts, t.text ≠ "" ∧ jsTrim t.text = t.text := by
  induction h with
  | init => simp
  | step op ts2 hr hp ih =>
    cases op with
    | add i n s =>
      simp only [applyOp]
      by_cases he : jsTrim s = ""
      · rw [addTask_val_neg i n s ts2 he]
        exact ih
      · rw [addTask_val_pos i n s ts2 he]
        intro t ht
        rcases List.mem_cons.mp ht with h1 | h1
        · subst h1
          exact ⟨he, jsTrim_idem s⟩
        · exact ih t h1
    | update id u =>
      have hu : ∀ s2, u.text = some s2 → jsTrim s2 = s2 ∧ s2 ≠ "" := hp
      simp only [applyOp]
      cases hf : updateFirst id u ts2 with
      | none =>
        have hval : (updateTask id u ts2).2.1 = ts2 := by simp [updateTask, hf]
        rw [hval]
        exact ih
      | some ts3 =>
        obtain ⟨pre, t0, post, h1, _, _, h4⟩ := updateFirst_eq_some id u ts2 ts3 hf
        have hval : (updateTask id u ts2).2.1 = ts3 := by simp [updateTask, hf]
        rw [hval, h4]
        intro t ht
        rcases List.mem_append.mp ht with h5 | h5
        · exact ih t (by rw [h1]; exact List.mem_append_left _ h5)
        · rcases List.mem_cons.mp h5 with h6 | h6
          · subst h6
            cases hut : u.text with
            | none =>
              have htext : (applyUpdate u t0).text = t0.text := by
                simp [applyUpdate, hut]
              rw [htext]
              exact ih t0
                (by rw [h1]; exact List.mem_append_right _ (List.mem_cons_self t0 post))
            | some s2 =>
              have h7 := hu s2 hut
              have htext : (applyUpdate u t0).text = s2 := by
                simp [applyUpdate, hut]
              rw [htext]
              exact ⟨h7.2, h7.1⟩
          · exact ih t
              (by rw [h1]; exact List.mem_append_right _ (List.mem_cons_of_mem t0 h6))
    | remove i =>
      simp only [applyOp]
      rw [removeTask_val]
      intro t ht
      exact ih t (List.mem_filter.mp ht).1
    | clear =>
      simp only [applyOp]
      intro t ht
      exact ih t (List.mem_filter.mp ht).1

theorem c4_text_invariant_witness :
    Task.text ⟨"_a", "hi", false, 0⟩ ≠ "" :=
  (c4_text_invariant (applyOp (Op.add "_a" 0 " hi ") [])
    (ReachP.step (Op.add "_a" 0 " hi ") [] ReachP.init trivial)
    ⟨"_a", "hi", false, 0⟩ (by decide)).1

end Todotasks
